import Mathlib

/-!
Shallow embedding of the soil-particle weathering simulation
(`model.py`, the binary-split model, and `linearGrowthModel.py`, the
linear-growth model).

Modelling conventions:
* Numeric values (side lengths, density, areas, volumes, masses) are
  embedded as rationals `ℚ`; halving a side is exact division by 2.
* The process-wide random generator is replaced by explicit parameters:
  the axis drawn by `rng.integers(1, 3, endpoint=True)` becomes a `ℕ`
  argument, and the row sample drawn by `DataFrame.sample` becomes an
  explicit list argument whose admissibility (a without-replacement
  sample of the requested size) is checked where pandas would enforce it.
* Fallible paths return `Option`: the source's `divide` leaves its
  result unbound when the draw is outside 1..3 (a runtime error in
  Python), and `DataFrame.sample(n)` raises when `n` exceeds the number
  of rows; both are modelled as `none`.
* Wall-clock timing columns of the output tables (`modelCreationTime`
  and friends) measure real time and are not part of any claim; they
  are omitted from the record types.
-/

/-- One particle of `model.py`: class `particle` stores the three sides,
the density, and the eagerly computed surface area, volume and mass. -/
structure Particle where
  d1 : ℚ
  d2 : ℚ
  d3 : ℚ
  density : ℚ
  surfaceArea : ℚ
  volume : ℚ
  mass : ℚ
deriving Repr, DecidableEq

/-- Constructor `particle.__init__` (model.py lines 36-43): stores the
sides and density and computes `surfaceArea`, `volume` and `mass`. -/
def Particle.init (side1 side2 side3 density : ℚ) : Particle :=
  { d1 := side1
    d2 := side2
    d3 := side3
    density := density
    surfaceArea := (2*side1*side2) + (2*side2*side3) + (2*side3*side1)
    volume := side1*side2*side3
    mass := density*(side1*side2*side3) }

/-- The support of the draw `rng.integers(1, 3, endpoint=True)` used by
`particle.divide` (model.py line 56) and by `createParticles`
(linearGrowthModel.py line 118): the integers from 1 to 3 inclusive. -/
def splitDrawSupport : Finset ℕ := Finset.Icc 1 3

/-- Method `particle.divide` (model.py lines 45-69) with the random draw
`number` made an explicit argument.  For a draw outside 1..3 the source
would reach `return newParticle1, newParticle2` with both names unbound
(a runtime error), modelled as `none`; such a draw never occurs. -/
def Particle.divide (p : Particle) (number : ℕ) : Option (Particle × Particle) :=
  if number = 1 then
    let newSide1 := p.d1 / 2
    some (Particle.init newSide1 p.d2 p.d3 p.density,
          Particle.init newSide1 p.d2 p.d3 p.density)
  else if number = 2 then
    let newSide2 := p.d2 / 2
    some (Particle.init p.d1 newSide2 p.d3 p.density,
          Particle.init p.d1 newSide2 p.d3 p.density)
  else if number = 3 then
    let newSide3 := p.d3 / 2
    some (Particle.init p.d1 p.d2 newSide3 p.density,
          Particle.init p.d1 p.d2 newSide3 p.density)
  else none

/-- Function `divideParticles` (model.py lines 72-98): every particle of
the old profile is divided and the two children of each are appended in
order.  `draws` supplies one axis draw per particle; a missing or
out-of-range draw (never produced by the generator) yields `none`.
The timing value returned by the source is wall-clock time and is not
modelled. -/
def divideParticles (oldParticles : List Particle) (draws : List ℕ) :
    Option (List Particle) :=
  match oldParticles, draws with
  | [], _ => some []
  | _ :: _, [] => none
  | p :: ps, d :: ds =>
    match p.divide d, divideParticles ps ds with
    | some (c1, c2), some rest => some (c1 :: c2 :: rest)
    | _, _ => none

/-- Function `characteristics` (model.py lines 101-136): accumulates the
surface areas and volumes into arrays (modelled by the append fold),
then returns their `np.sum`, `np.mean` and the particle count.
`np.mean` of an array is its sum divided by its length (for the empty
array numpy yields NaN while `ℚ` division by zero yields 0; the model is
only applied to nonempty profiles).  The timing value is not modelled. -/
def characteristics (particles : List Particle) : ℚ × ℚ × ℕ :=
  let numOfParticles := particles.length
  let SAarray := particles.foldl (fun arr p => arr ++ [p.surfaceArea]) []
  let volumeArray := particles.foldl (fun arr p => arr ++ [p.volume]) []
  let specificSA := SAarray.sum
  let meanVolume := volumeArray.sum / (volumeArray.length : ℚ)
  (specificSA, meanVolume, numOfParticles)

/-- One row of the output dataframe of `run` (model.py lines 139-217),
restricted to the non-timing columns. -/
structure ModelRecord where
  timeStep : ℕ
  numberOfParticles : ℕ
  specificSurfaceArea : ℚ
  particleVolume : ℚ
deriving Repr, DecidableEq

/-- Loop body of `run` (model.py lines 176-215): starting from
`oldProfile`, perform the remaining `k` time steps, the next one being
step `t`.  `oracle t` supplies the axis draws consumed at step `t`. -/
def runAux : ℕ → List Particle → ℕ → (ℕ → List ℕ) → Option (List ModelRecord)
  | 0, _, _, _ => some []
  | k + 1, oldProfile, t, oracle =>
    match divideParticles oldProfile (oracle t) with
    | none => none
    | some newProfile =>
      match runAux k newProfile (t + 1) oracle with
      | none => none
      | some rest =>
        some ({ timeStep := t
                numberOfParticles := (characteristics newProfile).2.2
                specificSurfaceArea := (characteristics newProfile).1
                particleVolume := (characteristics newProfile).2.1 } :: rest)

/-- Function `run` (model.py lines 139-217): the profile starts as the
one-element tuple `(parentMaterial,)` and the time steps are 1-based. -/
def run (parentMaterial : Particle) (endStep : ℕ) (oracle : ℕ → List ℕ) :
    Option (List ModelRecord) :=
  runAux endStep [parentMaterial] 1 oracle

/-- Total volume of a profile: the sum of the `volume` fields. -/
def totalVolume (particles : List Particle) : ℚ :=
  (particles.map Particle.volume).sum

/-- A particle whose stored `volume` field agrees with the product of
its sides.  Every particle built by `particle.__init__` (the only way
the source creates one) satisfies this. -/
def wellFormed (p : Particle) : Prop := p.volume = p.d1 * p.d2 * p.d3

/-- One row of the population dataframe of `linearGrowthModel.py`:
columns `id, side1, side2, side3, density, volume, mass, SA`. -/
structure Row where
  id : ℕ
  side1 : ℚ
  side2 : ℚ
  side3 : ℚ
  density : ℚ
  volume : ℚ
  mass : ℚ
  SA : ℚ
deriving Repr, DecidableEq

/-- Function `parentMaterial` (linearGrowthModel.py lines 24-56): a
single-row dataframe with id 1 and eagerly computed volume, mass and
surface area. -/
def parentMaterial (side1 side2 side3 density : ℚ) : List Row :=
  [{ id := 1
     side1 := side1
     side2 := side2
     side3 := side3
     density := density
     volume := side1*side2*side3
     mass := (side1*side2*side3)*density
     SA := (2*side1*side2) + (2*side2*side3) + (2*side1*side3) }]

/-- Function `growth` (linearGrowthModel.py lines 60-93), as a function
of the row count `soilProfile.shape[0]`.  The guards are translated
verbatim; the final guard `existingParticles > 1000` is entailed by the
failure of all earlier guards, so it becomes the trailing `else`. -/
def growth (existingParticles : ℕ) : ℕ :=
  if existingParticles ≤ 10 then 1
  else if existingParticles ≤ 20 ∧ existingParticles > 10 then 10
  else if existingParticles ≤ 50 ∧ existingParticles > 20 then 20
  else if existingParticles ≤ 100 ∧ existingParticles > 50 then 50
  else if existingParticles ≤ 200 ∧ existingParticles > 100 then 100
  else if existingParticles ≤ 300 ∧ existingParticles > 200 then 200
  else if existingParticles ≤ 1000 ∧ existingParticles > 300 then 300
  else 1000

/-- The growth step function exactly as the table in the specification
states it (spec 4.3): population size ≤ 10 gives 1, 11-20 gives 10,
21-50 gives 20, 51-100 gives 50, 101-200 gives 100, 201-300 gives 200,
301-1000 gives 300, above 1000 gives 1000. -/
def growthSpec (populationSize : ℕ) : ℕ :=
  if populationSize ≤ 10 then 1
  else if populationSize ≤ 20 then 10
  else if populationSize ≤ 50 then 20
  else if populationSize ≤ 100 then 50
  else if populationSize ≤ 200 then 100
  else if populationSize ≤ 300 then 200
  else if populationSize ≤ 1000 then 300
  else 1000

/-- Admissibility of a draw of `DataFrame.sample(newNum, axis=0)`
(linearGrowthModel.py line 113): the sampled rows are `newNum` rows of
the dataframe drawn without replacement (a subpermutation), in any
order.  When `newNum` exceeds the row count no admissible draw exists
(pandas raises), so the enclosing computation is `none`. -/
def validSample (sel : List Row) (df : List Row) (newNum : ℕ) : Prop :=
  sel.length = newNum ∧ List.Subperm sel df

instance (sel df : List Row) (newNum : ℕ) :
    Decidable (validSample sel df newNum) := by
  unfold validSample; infer_instance

/-- The side-halving assignment of `createParticles`
(linearGrowthModel.py lines 119-124) applied to one sampled row: halve
the side named by the shared draw, leave everything else.  A draw
outside 1..3 (never produced) changes nothing, exactly as the source's
if/elif chain with no else branch. -/
def halveSide (dividedSide : ℕ) (r : Row) : Row :=
  if dividedSide = 1 then { r with side1 := r.side1 / 2 }
  else if dividedSide = 2 then { r with side2 := r.side2 / 2 }
  else if dividedSide = 3 then { r with side3 := r.side3 / 2 }
  else r

/-- The vectorized recomputation of the derived columns of the sampled
rows (linearGrowthModel.py lines 125-133). -/
def recomputeDerived (r : Row) : Row :=
  { r with
    volume := r.side1 * r.side2 * r.side3
    mass := r.density * (r.side1 * r.side2 * r.side3)
    SA := (2*r.side1*r.side2) + (2*r.side2*r.side3) + (2*r.side1*r.side3) }

/-- The id reassignment `newProfile.id = np.arange(1, particleNum + 1)`
(linearGrowthModel.py line 137): row `j` (0-based) receives id `k + j`. -/
def assignIdsFrom : ℕ → List Row → List Row
  | _, [] => []
  | k, r :: rs => { r with id := k } :: assignIdsFrom (k + 1) rs

/-- Function `createParticles` (linearGrowthModel.py lines 96-139) with
the two random draws made explicit: `sel` is the result of
`soilProfile.sample(newNum, axis=0)` and `dividedSide` the axis draw.
The rows whose ids occur among the sampled ids are removed from a copy
of the profile (`query("id != [...]")` keeps ids not in the list), the
sampled copy is halved along the shared axis and its derived columns
recomputed, the new profile is the retained rows followed by two copies
of the divided rows, and ids are reassigned to 1..particleNum. -/
def createParticles (soilProfile : List Row) (sel : List Row)
    (dividedSide : ℕ) : Option (List Row) :=
  let newNum := growth soilProfile.length
  if validSample sel soilProfile newNum then
    let particlesToDivide := sel
    let particlesToDivideId := particlesToDivide.map Row.id
    let oldSoilProfile :=
      soilProfile.filter (fun r => decide (r.id ∉ particlesToDivideId))
    let divided := particlesToDivide.map
      (fun r => recomputeDerived (halveSide dividedSide r))
    let newProfile := oldSoilProfile ++ divided ++ divided
    some (assignIdsFrom 1 newProfile)
  else none

/-- The aggregation `newProfile.id.max()` (linearGrowthModel.py line
182): maximum of the id column, 0 when empty. -/
def maxId (l : List Row) : ℕ := (l.map Row.id).foldr max 0

/-- Column mean `newProfile.mean().mass` (linearGrowthModel.py lines
181, 184). -/
def meanMass (l : List Row) : ℚ := (l.map Row.mass).sum / (l.length : ℚ)

/-- Column mean `newProfile.mean().volume` (linearGrowthModel.py lines
181, 185). -/
def meanVol (l : List Row) : ℚ := (l.map Row.volume).sum / (l.length : ℚ)

/-- One row of the output dataframe of the linear-growth `run`
(linearGrowthModel.py lines 173-185). -/
structure LinRecord where
  timeStep : ℕ
  numOfParticles : ℕ
  meanParticleMass : ℚ
  meanParticleVolume : ℚ
  specificSA : ℚ
deriving Repr, DecidableEq

/-- Loop body of the linear-growth `run` (linearGrowthModel.py lines
178-186): perform the remaining `k` steps, the next being step `t`;
`selOracle t` and `axOracle t` supply that step's two random draws. -/
def linearRunAux : ℕ → List Row → ℕ → (ℕ → List Row) → (ℕ → ℕ) →
    Option (List LinRecord)
  | 0, _, _, _, _ => some []
  | k + 1, oldProfile, t, selOracle, axOracle =>
    match createParticles oldProfile (selOracle t) (axOracle t) with
    | none => none
    | some newProfile =>
      match linearRunAux k newProfile (t + 1) selOracle axOracle with
      | none => none
      | some rest =>
        some ({ timeStep := t
                numOfParticles := maxId newProfile
                meanParticleMass := meanMass newProfile
                meanParticleVolume := meanVol newProfile
                specificSA := (newProfile.map Row.SA).sum } :: rest)

/-- Function `run` (linearGrowthModel.py lines 142-188): build the
parent material, then iterate `createParticles` for `timeStep` steps,
recording max id, column means and the surface-area sum each step. -/
def linearRun (timeStep : ℕ) (side1 side2 side3 density : ℚ)
    (selOracle : ℕ → List Row) (axOracle : ℕ → ℕ) :
    Option (List LinRecord) :=
  linearRunAux timeStep (parentMaterial side1 side2 side3 density) 1
    selOracle axOracle

/-- The population-size recurrence stated by the specification for the
linear-growth model: size 1 at step 0, and each step adds
`growth` of the current size.  Every population reachable in
`linearRun` has size `linSize t` for some `t`. -/
def linSize : ℕ → ℕ
  | 0 => 1
  | t + 1 => linSize t + growth (linSize t)

/-- State-threading rendition of `createParticles` for the frame claim:
the second component is the caller's `soilProfile` binding after the
call.  Each pandas operation the body applies to `soilProfile` is
modelled with its documented copy semantics: `DataFrame.sample` returns
a new dataframe of copied rows and leaves its receiver unchanged,
`DataFrame.copy` returns a fresh copy, and the column assignments and
`query` act on those copies only. -/
def sampleOp (df : List Row) (sel : List Row) (newNum : ℕ) :
    Option (List Row) × List Row :=
  (if validSample sel df newNum then some sel else none, df)

/-- `DataFrame.copy` (linearGrowthModel.py line 114): returns a fresh
copy of the receiver and leaves the receiver unchanged. -/
def copyOp (df : List Row) : List Row × List Row := (df, df)

/-- `createParticles` with the caller's `soilProfile` threaded through
every operation that touches it; returns (result, caller's dataframe
after the call). -/
def createParticlesTracked (soilProfile : List Row) (sel : List Row)
    (dividedSide : ℕ) : Option (List Row) × List Row :=
  let newNum := growth soilProfile.length
  match sampleOp soilProfile sel newNum with
  | (none, soilProfileA) => (none, soilProfileA)
  | (some particlesToDivide, soilProfileA) =>
    match copyOp soilProfileA with
    | (oldCopy, soilProfileB) =>
      let particlesToDivideId := particlesToDivide.map Row.id
      let oldSoilProfile :=
        oldCopy.filter (fun r => decide (r.id ∉ particlesToDivideId))
      let divided := particlesToDivide.map
        (fun r => recomputeDerived (halveSide dividedSide r))
      let newProfile := oldSoilProfile ++ divided ++ divided
      (some (assignIdsFrom 1 newProfile), soilProfileB)

/-! ### Helper lemmas for the binary-split model -/

/-- The accumulation loop of `characteristics` appends one entry per
particle: folding append over a list extends the accumulator by the
mapped list. -/
theorem foldl_push_eq_map {α : Type} (f : α → ℚ) (l : List α) :
    ∀ acc : List ℚ, l.foldl (fun arr p => arr ++ [f p]) acc = acc ++ l.map f := by
  induction l with
  | nil => intro acc; simp
  | cons p ps ih => intro acc; simp [ih]

/-- Closed form of `characteristics`: total surface area, mean volume
(sum over count), and count. -/
theorem characteristics_eq (particles : List Particle) :
    characteristics particles =
      ((particles.map Particle.surfaceArea).sum,
       (particles.map Particle.volume).sum / (particles.length : ℚ),
       particles.length) := by
  unfold characteristics
  simp [foldl_push_eq_map]

/-- Both children of a divide draw within 1..3 are built by
`particle.__init__`, hence carry a consistent volume field. -/
theorem divide_wf (p : Particle) (n : ℕ) (c1 c2 : Particle)
    (h : p.divide n = some (c1, c2)) : wellFormed c1 ∧ wellFormed c2 := by
  unfold Particle.divide at h
  split_ifs at h <;>
    (simp only [Option.some.injEq, Prod.mk.injEq] at h;
     obtain ⟨h1, h2⟩ := h; subst h1; subst h2; exact ⟨rfl, rfl⟩)

/-- The volumes of the two children sum to the product of the parent's
sides, for every draw. -/
theorem divide_volume_prod (p : Particle) (n : ℕ) (c1 c2 : Particle)
    (h : p.divide n = some (c1, c2)) :
    c1.volume + c2.volume = p.d1 * p.d2 * p.d3 := by
  unfold Particle.divide at h
  split_ifs at h <;>
    (simp only [Option.some.injEq, Prod.mk.injEq] at h;
     obtain ⟨h1, h2⟩ := h; subst h1; subst h2;
     show _ + _ = _; simp only [Particle.init]; ring)

/-- `divideParticles` doubles the length of the profile whenever it
succeeds, whatever the draws were. -/
theorem divideParticles_length (ps : List Particle) :
    ∀ (draws : List ℕ) (l : List Particle),
      divideParticles ps draws = some l → l.length = 2 * ps.length := by
  induction ps with
  | nil =>
    intro draws l h
    simp only [divideParticles, Option.some.injEq] at h
    subst h; simp
  | cons p ps ih =>
    intro draws l h
    cases draws with
    | nil => simp [divideParticles] at h
    | cons d ds =>
      simp only [divideParticles] at h
      cases hd : p.divide d with
      | none => rw [hd] at h; simp at h
      | some pr =>
        obtain ⟨c1, c2⟩ := pr
        cases hr : divideParticles ps ds with
        | none => rw [hd, hr] at h; simp at h
        | some rest =>
          rw [hd, hr] at h
          simp only [Option.some.injEq] at h
          subst h
          have := ih ds rest hr
          simp only [List.length_cons, this]
          omega

/-- Every particle of a profile produced by `divideParticles` was built
by `particle.__init__`. -/
theorem divideParticles_wf (ps : List Particle) :
    ∀ (draws : List ℕ) (l : List Particle),
      divideParticles ps draws = some l → ∀ q ∈ l, wellFormed q := by
  induction ps with
  | nil =>
    intro draws l h
    simp only [divideParticles, Option.some.injEq] at h
    subst h; intro q hq; simp at hq
  | cons p ps ih =>
    intro draws l h
    cases draws with
    | nil => simp [divideParticles] at h
    | cons d ds =>
      simp only [divideParticles] at h
      cases hd : p.divide d with
      | none => rw [hd] at h; simp at h
      | some pr =>
        obtain ⟨c1, c2⟩ := pr
        cases hr : divideParticles ps ds with
        | none => rw [hd, hr] at h; simp at h
        | some rest =>
          rw [hd, hr] at h
          simp only [Option.some.injEq] at h
          subst h
          intro q hq
          obtain ⟨hw1, hw2⟩ := divide_wf p d c1 c2 hd
          rcases hq with _ | ⟨_, hq⟩
          · exact hw1
          · rcases hq with _ | ⟨_, hq⟩
            · exact hw2
            · exact ih ds rest hr q (by assumption)

/-- A divide step conserves the total volume of a well-formed profile. -/
theorem divideParticles_totalVolume (ps : List Particle) :
    ∀ (draws : List ℕ) (l : List Particle),
      (∀ p ∈ ps, wellFormed p) → divideParticles ps draws = some l →
      totalVolume l = totalVolume ps := by
  induction ps with
  | nil =>
    intro draws l _ h
    simp only [divideParticles, Option.some.injEq] at h
    subst h; rfl
  | cons p ps ih =>
    intro draws l hwf h
    cases draws with
    | nil => simp [divideParticles] at h
    | cons d ds =>
      simp only [divideParticles] at h
      cases hd : p.divide d with
      | none => rw [hd] at h; simp at h
      | some pr =>
        obtain ⟨c1, c2⟩ := pr
        cases hr : divideParticles ps ds with
        | none => rw [hd, hr] at h; simp at h
        | some rest =>
          rw [hd, hr] at h
          simp only [Option.some.injEq] at h
          subst h
          have hrest := ih ds rest (fun q hq => hwf q (List.mem_cons_of_mem p hq)) hr
          have hp : wellFormed p := hwf p (List.mem_cons_self p ps)
          have hsum := divide_volume_prod p d c1 c2 hd
          simp only [totalVolume, List.map_cons, List.sum_cons] at hrest ⊢
          rw [show (rest.map Particle.volume).sum = (ps.map Particle.volume).sum from hrest]
          rw [← add_assoc, hsum, wellFormed] at *
          rw [hp]

/-- The cascading conditional of the source equals the spec's
breakpoint table. -/
theorem growth_eq_table (n : ℕ) : growth n = growthSpec n := by
  unfold growth growthSpec
  split_ifs <;> omega

set_option maxHeartbeats 1000000 in
/-- The growth policy is monotone nondecreasing. -/
theorem growth_mono {m n : ℕ} (h : m ≤ n) : growth m ≤ growth n := by
  unfold growth
  split_ifs <;> omega

/-- The growth policy never requests more particles than exist. -/
theorem growth_le_self {n : ℕ} (h : 1 ≤ n) : growth n ≤ n := by
  unfold growth
  split_ifs <;> omega

/-- The count and time-step columns produced by the binary-split loop:
counts double each step from the incoming profile's size, and the
time-step column counts up from `t`. -/
theorem runAux_counts (k : ℕ) :
    ∀ (profile : List Particle) (t : ℕ) (oracle : ℕ → List ℕ)
      (records : List ModelRecord),
      runAux k profile t oracle = some records →
      records.map ModelRecord.numberOfParticles
          = (List.range k).map (fun i => 2 ^ (i + 1) * profile.length)
      ∧ records.map ModelRecord.timeStep
          = (List.range k).map (fun i => t + i) := by
  induction k with
  | zero =>
    intro profile t oracle records h
    simp only [runAux, Option.some.injEq] at h
    subst h; simp
  | succ k ih =>
    intro profile t oracle records h
    simp only [runAux] at h
    cases hd : divideParticles profile (oracle t) with
    | none => rw [hd] at h; simp at h
    | some newProfile =>
      rw [hd] at h
      dsimp only at h
      cases hr : runAux k newProfile (t + 1) oracle with
      | none => rw [hr] at h; simp at h
      | some rest =>
        rw [hr] at h
        simp only [Option.some.injEq] at h
        subst h
        have hlen := divideParticles_length profile (oracle t) newProfile hd
        obtain ⟨ih1, ih2⟩ := ih newProfile (t + 1) oracle rest hr
        have hnum : (characteristics newProfile).2.2 = newProfile.length := rfl
        constructor
        · simp only [List.map_cons, ih1, List.range_succ_eq_map, hnum,
            List.map_map]
          refine List.cons_eq_cons.mpr ⟨?_, ?_⟩
          · rw [hlen]; ring
          · apply List.map_congr_left
            intro a _
            simp only [Function.comp_apply, hlen, Nat.succ_eq_add_one]
            ring
        · simp only [List.map_cons, ih2, List.range_succ_eq_map,
            List.map_map]
          refine List.cons_eq_cons.mpr ⟨?_, ?_⟩
          · omega
          · apply List.map_congr_left
            intro a _
            simp only [Function.comp_apply]
            omega

/-- In the binary-split loop over a nonempty well-formed profile, the
product of mean volume and particle count of every step's record equals
the total volume of the incoming profile. -/
theorem runAux_volume (k : ℕ) :
    ∀ (profile : List Particle) (t : ℕ) (oracle : ℕ → List ℕ)
      (records : List ModelRecord),
      profile ≠ [] → (∀ p ∈ profile, wellFormed p) →
      runAux k profile t oracle = some records →
      records.map (fun r => r.particleVolume * (r.numberOfParticles : ℚ))
        = List.replicate k (totalVolume profile) := by
  induction k with
  | zero =>
    intro profile t oracle records _ _ h
    simp only [runAux, Option.some.injEq] at h
    subst h; simp
  | succ k ih =>
    intro profile t oracle records hne hwf h
    simp only [runAux] at h
    cases hd : divideParticles profile (oracle t) with
    | none => rw [hd] at h; simp at h
    | some newProfile =>
      rw [hd] at h
      dsimp only at h
      cases hr : runAux k newProfile (t + 1) oracle with
      | none => rw [hr] at h; simp at h
      | some rest =>
        rw [hr] at h
        simp only [Option.some.injEq] at h
        subst h
        have hlen := divideParticles_length profile (oracle t) newProfile hd
        have hplen : 0 < profile.length := List.length_pos.mpr hne
        have hnlen : 0 < newProfile.length := by omega
        have hnne : newProfile ≠ [] := by
          intro hcon; rw [hcon] at hnlen; simp at hnlen
        have hnwf := divideParticles_wf profile (oracle t) newProfile hd
        have hcons := divideParticles_totalVolume profile (oracle t)
          newProfile hwf hd
        have ihr := ih newProfile (t + 1) oracle rest hnne hnwf hr
        have hcast : ((newProfile.length : ℕ) : ℚ) ≠ 0 := by
          exact_mod_cast Nat.pos_iff_ne_zero.mp hnlen
        have hhead :
            (characteristics newProfile).2.1
              * (((characteristics newProfile).2.2 : ℕ) : ℚ)
              = totalVolume newProfile := by
          rw [characteristics_eq]
          exact div_mul_cancel₀ _ hcast
        simp only [List.map_cons, List.replicate_succ]
        rw [ihr, hcons, hhead, hcons]

/-! ### Claim theorems for the binary-split model -/

/-- C1: every particle value built by the binary-split model's particle
constructor, and every row built by the linear-growth model's
parentMaterial factory, has volume equal to the product of the sides,
mass equal to density times volume, and surface area equal to
`2*(s1*s2 + s2*s3 + s1*s3)`, computed eagerly at construction. -/
theorem particle_derived_fields (s1 s2 s3 d : ℚ) :
    (Particle.init s1 s2 s3 d).volume = s1 * s2 * s3
    ∧ (Particle.init s1 s2 s3 d).mass = d * (Particle.init s1 s2 s3 d).volume
    ∧ (Particle.init s1 s2 s3 d).surfaceArea = 2 * (s1*s2 + s2*s3 + s1*s3)
    ∧ (parentMaterial s1 s2 s3 d).map (fun r => (r.volume, r.mass, r.SA))
        = [(s1 * s2 * s3, d * (s1 * s2 * s3), 2 * (s1*s2 + s2*s3 + s1*s3))] := by
  refine ⟨rfl, rfl, ?_, ?_⟩
  · show (2*s1*s2) + (2*s2*s3) + (2*s3*s1) = _
    ring
  · have h1 : (s1*s2*s3)*d = d*(s1*s2*s3) := by ring
    have h2 : (2*s1*s2) + (2*s2*s3) + (2*s1*s3)
        = 2*(s1*s2 + s2*s3 + s1*s3) := by ring
    simp [parentMaterial, h1, h2]

/-- C3: the split operator draws its axis from exactly the set
`{1, 2, 3}`, and for every possible draw returns two equal particles
whose chosen side is half the parent's corresponding side, the other
two sides and the density unchanged.  The embedding is pure: `divide`
reads `p` and returns freshly constructed particles, so the parent is
never modified. -/
theorem divide_draw_support_and_children :
    splitDrawSupport = ({1, 2, 3} : Finset ℕ)
    ∧ ∀ (p : Particle) (number : ℕ), number ∈ splitDrawSupport →
        (p.divide number).isSome = true
        ∧ ∀ c1 c2 : Particle, p.divide number = some (c1, c2) →
            c1 = c2 ∧ c1.density = p.density
            ∧ ((number = 1 ∧ c1.d1 = p.d1 / 2 ∧ c1.d2 = p.d2 ∧ c1.d3 = p.d3)
              ∨ (number = 2 ∧ c1.d2 = p.d2 / 2 ∧ c1.d1 = p.d1 ∧ c1.d3 = p.d3)
              ∨ (number = 3 ∧ c1.d3 = p.d3 / 2 ∧ c1.d1 = p.d1 ∧ c1.d2 = p.d2)) := by
  constructor
  · decide
  · intro p number hmem
    have h123 : number = 1 ∨ number = 2 ∨ number = 3 := by
      simp only [splitDrawSupport, Finset.mem_Icc] at hmem
      omega
    rcases h123 with h | h | h <;> subst h
    · refine ⟨by norm_num [Particle.divide], ?_⟩
      intro c1 c2 heq
      norm_num [Particle.divide] at heq
      obtain ⟨h1, h2⟩ := heq
      subst h1; subst h2
      exact ⟨rfl, rfl, Or.inl ⟨rfl, rfl, rfl, rfl⟩⟩
    · refine ⟨by norm_num [Particle.divide], ?_⟩
      intro c1 c2 heq
      norm_num [Particle.divide] at heq
      obtain ⟨h1, h2⟩ := heq
      subst h1; subst h2
      exact ⟨rfl, rfl, Or.inr (Or.inl ⟨rfl, rfl, rfl, rfl⟩)⟩
    · refine ⟨by norm_num [Particle.divide], ?_⟩
      intro c1 c2 heq
      norm_num [Particle.divide] at heq
      obtain ⟨h1, h2⟩ := heq
      subst h1; subst h2
      exact ⟨rfl, rfl, Or.inr (Or.inr ⟨rfl, rfl, rfl, rfl⟩)⟩

/-- Witness for C3 at the particle (2, 4, 6, density 8) and draw 2. -/
theorem divide_draw_support_and_children_witness :
    ((Particle.init 2 4 6 8).divide 2).isSome = true
    ∧ (Particle.init 2 2 6 8).density = (Particle.init 2 4 6 8).density := by
  have h := divide_draw_support_and_children.2 (Particle.init 2 4 6 8) 2
    (by decide)
  exact ⟨h.1, (h.2 (Particle.init 2 2 6 8) (Particle.init 2 2 6 8)
    (by norm_num [Particle.divide, Particle.init])).2.1⟩

/-- C5: the source's growth function returns exactly the step function
of the spec's table, takes the stated boundary values, and is monotone
nondecreasing on population sizes at least 1. -/
theorem growth_matches_table :
    (∀ n : ℕ, growth n = growthSpec n)
    ∧ growth 10 = 1 ∧ growth 11 = 10 ∧ growth 20 = 10 ∧ growth 21 = 20
    ∧ growth 1000 = 300 ∧ growth 1001 = 1000
    ∧ ∀ m n : ℕ, 1 ≤ m → m ≤ n → growth m ≤ growth n :=
  ⟨growth_eq_table, by decide, by decide, by decide, by decide, by decide,
   by decide, fun _ _ _ h => growth_mono h⟩

/-- Witness for C5: the table agreement at 35 and monotonicity from 3
to 12. -/
theorem growth_matches_table_witness :
    growth 35 = growthSpec 35 ∧ growth 3 ≤ growth 12 :=
  ⟨growth_matches_table.1 35,
   growth_matches_table.2.2.2.2.2.2.2 3 12 (by decide) (by decide)⟩

/-- C7: contrary to the spec's error-handling design, constructing a
particle or a parent material with a non-positive side does not fail:
both constructors are total and return a value with the derived fields
computed from the given (here negative) inputs. -/
theorem construction_accepts_nonpositive :
    Particle.init (-1) 1 1 1 =
      { d1 := -1, d2 := 1, d3 := 1, density := 1,
        surfaceArea := -2, volume := -1, mass := -1 }
    ∧ parentMaterial (-1) 1 1 1 =
      [{ id := 1, side1 := -1, side2 := 1, side3 := 1, density := 1,
         volume := -1, mass := -1, SA := -2 }] := by
  constructor
  · norm_num [Particle.init]
  · norm_num [parentMaterial]

/-- C9: on a nonempty profile, `characteristics` returns the sum of
the surface areas, the arithmetic mean of the volumes, and the length
of the tuple; it is a pure function, so evaluating it twice on the same
population yields the same statistics. -/
theorem characteristics_spec (particles : List Particle)
    (_hne : particles ≠ []) :
    characteristics particles =
      ((particles.map Particle.surfaceArea).sum,
       (particles.map Particle.volume).sum / (particles.length : ℚ),
       particles.length)
    ∧ characteristics particles = characteristics particles :=
  ⟨characteristics_eq particles, rfl⟩

/-- Witness for C9 at a two-particle profile. -/
theorem characteristics_spec_witness :
    characteristics [Particle.init 1 2 3 4, Particle.init 1 1 1 1] =
      (([Particle.init 1 2 3 4, Particle.init 1 1 1 1].map
          Particle.surfaceArea).sum,
       ([Particle.init 1 2 3 4, Particle.init 1 1 1 1].map
          Particle.volume).sum
         / (([Particle.init 1 2 3 4, Particle.init 1 1 1 1].length : ℕ) : ℚ),
       [Particle.init 1 2 3 4, Particle.init 1 1 1 1].length)
    ∧ characteristics [Particle.init 1 2 3 4, Particle.init 1 1 1 1]
        = characteristics [Particle.init 1 2 3 4, Particle.init 1 1 1 1] :=
  characteristics_spec [Particle.init 1 2 3 4, Particle.init 1 1 1 1]
    (by simp)

/-- C2: a divide step returns exactly twice as many particles as it was
given, for every choice of axis draws; hence the binary-split run
starting from the single parent particle reports
`numberOfParticles = 2 ^ t` at every time step `t` from 1 to the end. -/
theorem divideParticles_doubles_and_run_pow2 :
    (∀ (ps : List Particle) (draws : List ℕ) (l : List Particle),
        divideParticles ps draws = some l → l.length = 2 * ps.length)
    ∧ ∀ (pm : Particle) (endStep : ℕ) (oracle : ℕ → List ℕ)
        (records : List ModelRecord),
        run pm endStep oracle = some records →
        records.map ModelRecord.numberOfParticles
            = (List.range endStep).map (fun t => 2 ^ (t + 1))
        ∧ records.map ModelRecord.timeStep
            = (List.range endStep).map (fun t => t + 1) := by
  constructor
  · exact divideParticles_length
  · intro pm endStep oracle records h
    obtain ⟨h1, h2⟩ := runAux_counts endStep [pm] 1 oracle records h
    constructor
    · rw [h1]
      apply List.map_congr_left
      intro a _
      simp
    · rw [h2]
      apply List.map_congr_left
      intro a _
      omega

/-- Witness for C2: a two-step run from the unit cube, and a single
doubling step. -/
theorem divideParticles_doubles_and_run_pow2_witness :
    ([{ timeStep := 1, numberOfParticles := 2,
        specificSurfaceArea := 8, particleVolume := 1/2 },
      { timeStep := 2, numberOfParticles := 4,
        specificSurfaceArea := 11, particleVolume := 1/4 }] :
        List ModelRecord).map ModelRecord.numberOfParticles = [2, 4]
    ∧ ([Particle.init (1/2) 1 1 1, Particle.init (1/2) 1 1 1].length
        = 2 * [Particle.init 1 1 1 1].length) := by
  have h2 := divideParticles_doubles_and_run_pow2.2 (Particle.init 1 1 1 1) 2
    (fun _ => [1, 2, 3, 1])
    [{ timeStep := 1, numberOfParticles := 2,
       specificSurfaceArea := 8, particleVolume := 1/2 },
     { timeStep := 2, numberOfParticles := 4,
       specificSurfaceArea := 11, particleVolume := 1/4 }]
    (by norm_num [run, runAux, divideParticles, Particle.divide,
      Particle.init, characteristics])
  have h1 := divideParticles_doubles_and_run_pow2.1 [Particle.init 1 1 1 1]
    [1] [Particle.init (1/2) 1 1 1, Particle.init (1/2) 1 1 1]
    (by norm_num [divideParticles, Particle.divide, Particle.init])
  exact ⟨h2.1.trans (by decide), h1⟩

/-- C4: for every draw, the two children of a divide have volumes
summing to the parent's volume; a divide step conserves the total
volume of a well-formed profile; and along a binary-split run the mean
volume times the particle count of every reported step equals the
parent material's volume. -/
theorem divide_conserves_volume :
    (∀ (p : Particle) (n : ℕ) (c1 c2 : Particle),
        p.divide n = some (c1, c2) →
        c1.volume + c2.volume = p.d1 * p.d2 * p.d3
        ∧ (wellFormed p → c1.volume + c2.volume = p.volume))
    ∧ (∀ (ps : List Particle) (draws : List ℕ) (l : List Particle),
        (∀ p ∈ ps, wellFormed p) → divideParticles ps draws = some l →
        totalVolume l = totalVolume ps)
    ∧ ∀ (pm : Particle) (endStep : ℕ) (oracle : ℕ → List ℕ)
        (records : List ModelRecord),
        wellFormed pm → run pm endStep oracle = some records →
        records.map (fun r => r.particleVolume * (r.numberOfParticles : ℚ))
          = List.replicate endStep pm.volume := by
  refine ⟨?_, ?_, ?_⟩
  · intro p n c1 c2 h
    have hp := divide_volume_prod p n c1 c2 h
    exact ⟨hp, fun hwf => by rw [hp, wellFormed] at *; rw [hwf]⟩
  · intro ps draws l hwf h
    exact divideParticles_totalVolume ps draws l hwf h
  · intro pm endStep oracle records hwf h
    have hv := runAux_volume endStep [pm] 1 oracle records (by simp)
      (by intro q hq; rw [List.mem_singleton] at hq; subst hq; exact hwf) h
    rw [hv]
    congr 1
    simp [totalVolume]

/-- Witness for C4: a split of the (1, 2, 3)-prism and a two-step run
from the unit cube. -/
theorem divide_conserves_volume_witness :
    (Particle.init (1/2) 2 3 4).volume + (Particle.init (1/2) 2 3 4).volume
        = (Particle.init 1 2 3 4).volume
    ∧ ([{ timeStep := 1, numberOfParticles := 2,
          specificSurfaceArea := 8, particleVolume := 1/2 },
        { timeStep := 2, numberOfParticles := 4,
          specificSurfaceArea := 11, particleVolume := 1/4 }] :
          List ModelRecord).map
        (fun r => r.particleVolume * (r.numberOfParticles : ℚ)) = [1, 1] := by
  have h1 := (divide_conserves_volume.1 (Particle.init 1 2 3 4) 1
    (Particle.init (1/2) 2 3 4) (Particle.init (1/2) 2 3 4)
    (by norm_num [Particle.divide, Particle.init])).2
    (by rw [wellFormed]; norm_num [Particle.init])
  have h3 := divide_conserves_volume.2.2 (Particle.init 1 1 1 1) 2
    (fun _ => [1, 2, 3, 1])
    [{ timeStep := 1, numberOfParticles := 2,
       specificSurfaceArea := 8, particleVolume := 1/2 },
     { timeStep := 2, numberOfParticles := 4,
       specificSurfaceArea := 11, particleVolume := 1/4 }]
    (by rw [wellFormed]; norm_num [Particle.init])
    (by norm_num [run, runAux, divideParticles, Particle.divide,
      Particle.init, characteristics])
  refine ⟨h1, h3.trans ?_⟩
  norm_num [Particle.init, List.replicate]

/-! ### Helper lemmas for the linear-growth model -/

/-- Reassigning ids preserves the number of rows. -/
theorem assignIdsFrom_length (l : List Row) :
    ∀ k, (assignIdsFrom k l).length = l.length := by
  induction l with
  | nil => intro k; rfl
  | cons r rs ih => intro k; simp [assignIdsFrom, ih]

/-- After id reassignment the id column is the consecutive range
starting at the first assigned id. -/
theorem assignIdsFrom_map_id (l : List Row) :
    ∀ k, (assignIdsFrom k l).map Row.id = List.range' k l.length := by
  induction l with
  | nil => intro k; rfl
  | cons r rs ih =>
    intro k
    simp only [assignIdsFrom, List.map_cons, ih, List.length_cons,
      List.range'_succ]

/-- Maximum of a consecutive range of naturals. -/
theorem range'_foldr_max (n : ℕ) :
    ∀ k, (List.range' k n).foldr max 0 = if n = 0 then 0 else k + n - 1 := by
  induction n with
  | zero => intro k; simp
  | succ n ih =>
    intro k
    rw [List.range'_succ]
    simp only [List.foldr_cons, ih]
    by_cases hn : n = 0
    · subst hn; simp
    · rw [if_neg hn, if_neg (Nat.succ_ne_zero n)]
      omega

/-- The max id of a freshly renumbered profile is its row count. -/
theorem maxId_assignIds (l : List Row) :
    maxId (assignIdsFrom 1 l) = (assignIdsFrom 1 l).length := by
  unfold maxId
  rw [assignIdsFrom_map_id, assignIdsFrom_length, range'_foldr_max]
  by_cases h : l.length = 0
  · simp [h]
  · rw [if_neg h]; omega

/-- A without-replacement sample has no duplicate ids and only ids of
the profile, provided the profile's ids are distinct. -/
theorem sample_ids_nodup_subset (sel profile : List Row)
    (hsub : List.Subperm sel profile)
    (hnd : (profile.map Row.id).Nodup) :
    (sel.map Row.id).Nodup ∧ ∀ x ∈ sel.map Row.id, x ∈ profile.map Row.id := by
  obtain ⟨w, hwperm, hwsub⟩ := hsub
  have hmapsub : List.Sublist (w.map Row.id) (profile.map Row.id) :=
    hwsub.map Row.id
  have hmapperm : (w.map Row.id).Perm (sel.map Row.id) := hwperm.map Row.id
  constructor
  · exact hmapperm.nodup_iff.mp (List.Nodup.sublist hmapsub hnd)
  · intro x hx
    exact hmapsub.subset (hmapperm.mem_iff.mpr hx)

/-- Counting lemma: among rows with pairwise distinct ids, the number
whose id lies in a duplicate-free sub-collection of those ids equals the
size of that sub-collection. -/
theorem filter_mem_ids_length (ids D : List ℕ) (hnd : ids.Nodup)
    (hDnd : D.Nodup) (hDsub : ∀ x ∈ D, x ∈ ids) :
    (ids.filter (fun x => decide (x ∈ D))).length = D.length := by
  have hfnd : (ids.filter (fun x => decide (x ∈ D))).Nodup :=
    List.Nodup.sublist (List.filter_sublist ids) hnd
  have hperm : (ids.filter (fun x => decide (x ∈ D))).Perm D := by
    rw [List.perm_ext_iff_of_nodup hfnd hDnd]
    intro a
    simp only [List.mem_filter, decide_eq_true_eq]
    exact ⟨fun h => h.2, fun h => ⟨hDsub a h, h⟩⟩
  exact hperm.length_eq

/-- The retained set of `createParticles` (the `query` on the id
column) removes exactly one row per sampled id. -/
theorem retained_length (profile : List Row) (D : List ℕ)
    (hnd : (profile.map Row.id).Nodup) (hDnd : D.Nodup)
    (hDsub : ∀ x ∈ D, x ∈ profile.map Row.id) :
    (profile.filter (fun r => decide (r.id ∉ D))).length
      = profile.length - D.length := by
  have hsplit := List.length_eq_length_filter_add
    (l := profile) (fun r => decide (r.id ∈ D))
  have hmem : (profile.filter (fun r => decide (r.id ∈ D))).length
      = D.length := by
    have hcomm : (profile.map Row.id).filter (fun x => decide (x ∈ D))
        = (profile.filter ((fun x => decide (x ∈ D)) ∘ Row.id)).map Row.id :=
      List.filter_map Row.id profile
    have hlen := congrArg List.length hcomm
    rw [List.length_map] at hlen
    rw [filter_mem_ids_length (profile.map Row.id) D hnd hDnd hDsub] at hlen
    have : ((fun x => decide (x ∈ D)) ∘ Row.id)
        = (fun r : Row => decide (r.id ∈ D)) := rfl
    rw [this] at hlen
    omega
  have hnotform : (fun r : Row => !(decide (r.id ∈ D)))
      = (fun r : Row => decide (r.id ∉ D)) := by
    funext r
    simp [decide_not]
  rw [hnotform] at hsplit
  omega

/-- Inversion of a successful `createParticles` call on a profile with
duplicate-free ids: the new profile has the old size plus the growth
count, its id column is exactly 1..newSize in order, and its max id is
its size. -/
theorem createParticles_some_spec (profile sel : List Row) (ax : ℕ)
    (out : List Row) (hnd : (profile.map Row.id).Nodup)
    (h : createParticles profile sel ax = some out) :
    out.length = profile.length + growth profile.length
    ∧ out.map Row.id = List.range' 1 out.length
    ∧ maxId out = out.length := by
  unfold createParticles at h
  dsimp only at h
  split at h
  case isFalse => simp at h
  case isTrue hv =>
    simp only [Option.some.injEq] at h
    subst h
    obtain ⟨hlen_sel, hsub⟩ := hv
    obtain ⟨hDnd, hDsub⟩ := sample_ids_nodup_subset sel profile hsub hnd
    have hret := retained_length profile (sel.map Row.id) hnd hDnd hDsub
    have hgle : growth profile.length ≤ profile.length := by
      have := hsub.length_le
      omega
    have hbig :
        (profile.filter (fun r => decide (r.id ∉ sel.map Row.id))
          ++ sel.map (fun r => recomputeDerived (halveSide ax r))
          ++ sel.map (fun r => recomputeDerived (halveSide ax r))).length
        = profile.length + growth profile.length := by
      simp only [List.length_append, List.length_map, hret]
      omega
    refine ⟨?_, ?_, ?_⟩
    · rw [assignIdsFrom_length, hbig]
    · rw [assignIdsFrom_map_id, assignIdsFrom_length]
    · exact maxId_assignIds _

/-- When the growth policy requests more rows than the profile has, no
admissible without-replacement sample exists and `createParticles`
fails (pandas `sample` raises) instead of clamping. -/
theorem createParticles_infeasible (profile sel : List Row) (ax : ℕ)
    (hgt : profile.length < growth profile.length) :
    createParticles profile sel ax = none := by
  unfold createParticles
  dsimp only
  rw [if_neg]
  intro hv
  obtain ⟨hlen, hsub⟩ := hv
  have := hsub.length_le
  omega

/-- The population-size recurrence stays at least 1. -/
theorem linSize_pos (t : ℕ) : 1 ≤ linSize t := by
  induction t with
  | zero => exact le_refl 1
  | succ t ih => unfold linSize; omega

/-- The count and time-step columns produced by the linear-growth loop:
sizes follow the `linSize` recurrence from the incoming profile's
position in it, and the time-step column counts up from `t`. -/
theorem linearRunAux_spec (k : ℕ) :
    ∀ (profile : List Row) (t m : ℕ) (selO : ℕ → List Row) (axO : ℕ → ℕ)
      (records : List LinRecord),
      (profile.map Row.id).Nodup → profile.length = linSize m →
      linearRunAux k profile t selO axO = some records →
      records.map LinRecord.numOfParticles
          = (List.range k).map (fun i => linSize (m + i + 1))
      ∧ records.map LinRecord.timeStep
          = (List.range k).map (fun i => t + i) := by
  induction k with
  | zero =>
    intro profile t m selO axO records _ _ h
    simp only [linearRunAux, Option.some.injEq] at h
    subst h; simp
  | succ k ih =>
    intro profile t m selO axO records hnd hlen h
    simp only [linearRunAux] at h
    cases hc : createParticles profile (selO t) (axO t) with
    | none => rw [hc] at h; simp at h
    | some newProfile =>
      rw [hc] at h
      dsimp only at h
      cases hr : linearRunAux k newProfile (t + 1) selO axO with
      | none => rw [hr] at h; simp at h
      | some rest =>
        rw [hr] at h
        simp only [Option.some.injEq] at h
        subst h
        obtain ⟨hl, hids, hmax⟩ :=
          createParticles_some_spec profile (selO t) (axO t) newProfile hnd hc
        have hnewnd : (newProfile.map Row.id).Nodup := by
          rw [hids]; exact List.nodup_range' 1 newProfile.length 1 Nat.one_pos
        have hnewlen : newProfile.length = linSize (m + 1) := by
          rw [hl, hlen]; rfl
        obtain ⟨ih1, ih2⟩ := ih newProfile (t + 1) (m + 1) selO axO rest
          hnewnd hnewlen hr
        constructor
        · simp only [List.map_cons, ih1, List.range_succ_eq_map, List.map_map]
          refine List.cons_eq_cons.mpr ⟨?_, ?_⟩
          · rw [hmax, hnewlen]
          · apply List.map_congr_left
            intro a _
            simp only [Function.comp_apply, Nat.succ_eq_add_one]
            congr 1
            omega
        · simp only [List.map_cons, ih2, List.range_succ_eq_map, List.map_map]
          refine List.cons_eq_cons.mpr ⟨?_, ?_⟩
          · omega
          · apply List.map_congr_left
            intro a _
            simp only [Function.comp_apply]
            omega

/-! ### Claim theorems for the linear-growth model -/

/-- C6: a successful `createParticles` call on a population of `n ≥ 1`
rows whose ids are exactly 1..n returns `n + growth n` rows with ids
reassigned to exactly 1..(n + growth n); consequently along `run` the
reported particle count at step t is the size recurrence value
`linSize t`, which equals the previous size plus its growth, and the
count equals the maximum id, which equals the population size. -/
theorem createParticles_count_and_run :
    (∀ (soilProfile sel : List Row) (ax : ℕ) (out : List Row),
        1 ≤ soilProfile.length →
        (soilProfile.map Row.id).Perm (List.range' 1 soilProfile.length) →
        createParticles soilProfile sel ax = some out →
        out.length = soilProfile.length + growth soilProfile.length
        ∧ out.map Row.id = List.range' 1 out.length
        ∧ maxId out = out.length)
    ∧ ∀ (timeStep : ℕ) (s1 s2 s3 d : ℚ) (selO : ℕ → List Row)
        (axO : ℕ → ℕ) (records : List LinRecord),
        linearRun timeStep s1 s2 s3 d selO axO = some records →
        records.map LinRecord.numOfParticles
            = (List.range timeStep).map (fun t => linSize (t + 1))
        ∧ records.map LinRecord.timeStep
            = (List.range timeStep).map (fun t => t + 1)
        ∧ ∀ t : ℕ, linSize (t + 1) = linSize t + growth (linSize t) := by
  constructor
  · intro profile sel ax out _ hperm h
    exact createParticles_some_spec profile sel ax out
      (hperm.nodup_iff.mpr (List.nodup_range' 1 profile.length 1 Nat.one_pos))
      h
  · intro timeStep s1 s2 s3 d selO axO records h
    have hpm : ((parentMaterial s1 s2 s3 d).map Row.id).Nodup := by
      simp [parentMaterial]
    have hpl : (parentMaterial s1 s2 s3 d).length = linSize 0 := rfl
    obtain ⟨h1, h2⟩ := linearRunAux_spec timeStep (parentMaterial s1 s2 s3 d)
      1 0 selO axO records hpm hpl h
    refine ⟨?_, ?_, fun t => rfl⟩
    · rw [h1]
      apply List.map_congr_left
      intro a _
      congr 1
      omega
    · rw [h2]
      apply List.map_congr_left
      intro a _
      omega

/-- Witness for C6: one step from a cubic parent of side 4, density 2,
sampling the single row and halving side 1. -/
theorem createParticles_count_and_run_witness :
    ([{ id := 1, side1 := 2, side2 := 4, side3 := 4, density := 2,
        volume := 32, mass := 64, SA := 64 },
      { id := 2, side1 := 2, side2 := 4, side3 := 4, density := 2,
        volume := 32, mass := 64, SA := 64 }] : List Row).map Row.id
        = List.range' 1 2
    ∧ ([{ timeStep := 1, numOfParticles := 2, meanParticleMass := 64,
          meanParticleVolume := 32, specificSA := 128 }] :
          List LinRecord).map LinRecord.numOfParticles = [2] := by
  have hv : validSample (parentMaterial 4 4 4 2) (parentMaterial 4 4 4 2)
      (growth (parentMaterial 4 4 4 2).length) :=
    ⟨rfl, List.Subperm.refl _⟩
  have hcp : createParticles (parentMaterial 4 4 4 2)
      (parentMaterial 4 4 4 2) 1
      = some [{ id := 1, side1 := 2, side2 := 4, side3 := 4, density := 2,
                volume := 32, mass := 64, SA := 64 },
              { id := 2, side1 := 2, side2 := 4, side3 := 4, density := 2,
                volume := 32, mass := 64, SA := 64 }] := by
    unfold createParticles
    dsimp only
    rw [if_pos hv]
    norm_num [parentMaterial, halveSide, recomputeDerived, assignIdsFrom]
  have hrun : linearRun 1 4 4 4 2 (fun _ => parentMaterial 4 4 4 2)
      (fun _ => 1)
      = some [{ timeStep := 1, numOfParticles := 2, meanParticleMass := 64,
                meanParticleVolume := 32, specificSA := 128 }] := by
    unfold linearRun
    show linearRunAux (0 + 1) (parentMaterial 4 4 4 2) 1 _ _ = _
    rw [linearRunAux, hcp]
    norm_num [linearRunAux, maxId, meanMass, meanVol]
  have hpart1 := (createParticles_count_and_run.1 (parentMaterial 4 4 4 2)
    (parentMaterial 4 4 4 2) 1 _ (by norm_num [parentMaterial])
    (List.Perm.refl _) hcp).2.1
  have hpart2 := (createParticles_count_and_run.2 1 4 4 4 2
    (fun _ => parentMaterial 4 4 4 2) (fun _ => 1) _ hrun).1
  exact ⟨by rw [hpart1]; rfl, hpart2.trans (by decide)⟩

/-- C8: the growth policy never requests more particles than the
population holds (for any size at least 1, in particular for every size
reachable from the single-row parent material along the `linSize`
recurrence), so the without-replacement sample of `createParticles` is
always feasible there; and when the request does exceed the population,
`createParticles` fails rather than clamping. -/
theorem growth_feasible :
    (∀ n : ℕ, 1 ≤ n → growth n ≤ n)
    ∧ (∀ t : ℕ, 1 ≤ linSize t ∧ growth (linSize t) ≤ linSize t)
    ∧ ∀ (profile sel : List Row) (ax : ℕ),
        profile.length < growth profile.length →
        createParticles profile sel ax = none := by
  refine ⟨fun n hn => growth_le_self hn,
    fun t => ⟨linSize_pos t, growth_le_self (linSize_pos t)⟩, ?_⟩
  intro profile sel ax hgt
  exact createParticles_infeasible profile sel ax hgt

/-- Witness for C8: feasibility at size 5 and failure on the empty
population (size 0 with growth 1). -/
theorem growth_feasible_witness :
    growth 5 ≤ 5 ∧ createParticles [] [] 1 = none :=
  ⟨growth_feasible.1 5 (by decide),
   growth_feasible.2.2 [] [] 1 (by decide)⟩

/-- C10: createParticles never modifies the population dataframe passed
to it: threading the caller's `soilProfile` binding through every
operation of the body (each modelled with its pandas copy semantics)
returns that binding unchanged, while producing the same result as
`createParticles`. -/
theorem createParticlesTracked_frame (profile sel : List Row) (ax : ℕ) :
    (createParticlesTracked profile sel ax).2 = profile
    ∧ (createParticlesTracked profile sel ax).1
        = createParticles profile sel ax := by
  constructor
  · unfold createParticlesTracked sampleOp copyOp
    dsimp only
    by_cases hv : validSample sel profile (growth profile.length)
    · rw [if_pos hv]
    · rw [if_neg hv]
  · unfold createParticlesTracked createParticles sampleOp copyOp
    dsimp only
    by_cases hv : validSample sel profile (growth profile.length)
    · simp only [if_pos hv]
    · simp only [if_neg hv]
